import Mathlib

/-!
Verification development for the CultureModel repository (src/model.py).

The Python classes `Agent`, `Institution` and `CulturalDynamicsModel` are
shallowly embedded below.  Python floats are modelled as `ℚ` wherever the
code only does field arithmetic and comparisons, and as `ℝ` where the code
takes real powers (`hours ** (1.0 / dim_factor)`).  Python dicts keyed by
institution identifiers become association lists, Python sets become
duplicate-free lists, and the global NumPy random stream becomes an explicit
oracle `u : ℕ → ℚ` of successive draws in `[0,1)` (with
`np.random.uniform a b` modelled as `a + (b - a) * u k`).
-/

/-- The seven value dimensions of `Agent.values` in model.py. -/
inductive ValueDim : Type
  | community | tradition | growth | civic | status | leisure | wealth
deriving DecidableEq

/-- A time allocation: the Python dict `inst_name -> hours`. -/
abbrev Alloc := List (String × ℚ)

/-- First-match association lookup, the embedding of Python dict indexing. -/
def assoc_find? {κ α : Type} [DecidableEq κ] : List (κ × α) → κ → Option α
  | [], _ => none
  | p :: ps, k => if p.1 = k then some p.2 else assoc_find? ps k

/-- Python `d.get(k, 0)` on an allocation dict. -/
def alloc_get (al : Alloc) (n : String) : ℚ := (assoc_find? al n).getD 0

/-- Python `set.add`: append an element unless it is already present. -/
def set_add {α : Type} [DecidableEq α] (l : List α) (x : α) : List α :=
  if x ∈ l then l else l ++ [x]

/-- Embedding of the `Institution` dataclass of model.py.  `members` is the
Python set of agent ids (kept as a duplicate-free list); `culture` is total
because model.py always reads it through `culture.get(d, 0)`. -/
structure Institution : Type where
  name : String
  practice_type : String
  size : ℕ
  members : List ℕ
  culture : ValueDim → ℚ
  money_cost_per_hour : ℚ
  money_income_per_hour : ℚ
  position : ℚ × ℚ

/-- The institution registry `CulturalDynamicsModel.institutions`: a dict
from the combined identifier `f"{type}_{name}"` to the institution. -/
abbrev Insts := List (String × Institution)

/-- Embedding of the `Agent` class of model.py. -/
structure Agent : Type where
  id : ℕ
  position : ℚ × ℚ
  values : ValueDim → ℚ
  time_budget : ℕ
  money_budget : ℚ
  time_allocation : Alloc
  institutions : List String
  aware_of : List String
  communication_strength : ℚ
  timesteps_since_change : ℕ

/-- Dot product of two value vectors over the seven dimensions; used both
for the membership `fit` and for the per-hour utility benefits. -/
def value_dot (c v : ValueDim → ℚ) : ℚ :=
  c ValueDim.community * v ValueDim.community +
  c ValueDim.tradition * v ValueDim.tradition +
  c ValueDim.growth * v ValueDim.growth +
  c ValueDim.civic * v ValueDim.civic +
  c ValueDim.status * v ValueDim.status +
  c ValueDim.leisure * v ValueDim.leisure +
  c ValueDim.wealth * v ValueDim.wealth

/-- A practice profile from `_create_practice_profiles`. -/
structure PracticeProfile : Type where
  optimal_hours : ℚ
  diminishing_returns_factor : ℚ
  value_benefits_per_hour : ValueDim → ℚ

def work_benefits : ValueDim → ℚ
  | .community => 0.01 | .tradition => 0 | .growth => 0.02
  | .civic => 0.01 | .status => 0.03 | .leisure => -0.05 | .wealth => 0

def church_benefits : ValueDim → ℚ
  | .community => 0.15 | .tradition => 0.12 | .growth => 0.05
  | .civic => 0.06 | .status => 0.04 | .leisure => 0 | .wealth => 0

def club_benefits : ValueDim → ℚ
  | .community => 0.10 | .tradition => 0.02 | .growth => 0.08
  | .civic => 0.03 | .status => 0.06 | .leisure => 0.05 | .wealth => 0

def political_org_benefits : ValueDim → ℚ
  | .community => 0.07 | .tradition => 0.03 | .growth => 0.06
  | .civic => 0.15 | .status => 0.09 | .leisure => 0 | .wealth => 0

def education_benefits : ValueDim → ℚ
  | .community => 0.05 | .tradition => 0.04 | .growth => 0.15
  | .civic => 0.05 | .status => 0.10 | .leisure => 0 | .wealth => 0

def community_center_benefits : ValueDim → ℚ
  | .community => 0.12 | .tradition => 0.08 | .growth => 0.04
  | .civic => 0.02 | .status => 0.02 | .leisure => 0.08 | .wealth => 0

def work_profile : PracticeProfile := ⟨40, 1.5, work_benefits⟩
def church_profile : PracticeProfile := ⟨10, 1.3, church_benefits⟩
def club_profile : PracticeProfile := ⟨6, 1.4, club_benefits⟩
def political_org_profile : PracticeProfile := ⟨15, 1.2, political_org_benefits⟩
def education_profile : PracticeProfile := ⟨20, 1.1, education_benefits⟩
def community_center_profile : PracticeProfile := ⟨30, 1.2, community_center_benefits⟩

/-- The fixed table `_create_practice_profiles` of model.py, as a partial
map: Python raises `KeyError` on a practice type outside the catalog. -/
def practice_profiles (t : String) : Option PracticeProfile :=
  if t = "work" then some work_profile
  else if t = "church" then some church_profile
  else if t = "club" then some club_profile
  else if t = "political_org" then some political_org_profile
  else if t = "education" then some education_profile
  else if t = "community_center" then some community_center_profile
  else none

/-- The keys of `practice_profiles`, i.e. the history series catalog. -/
def catalog : List String :=
  ["work", "church", "club", "political_org", "education", "community_center"]

/-- One institution created by `_create_institutions_from_config`: it always
starts with an empty member set. -/
def create_institution (name ptype : String) (size : ℕ) (culture : ValueDim → ℚ)
    (money_cost money_income : ℚ) (pos : ℚ × ℚ) : Institution :=
  { name := name, practice_type := ptype, size := size, members := [],
    culture := culture, money_cost_per_hour := money_cost,
    money_income_per_hour := money_income, position := pos }

/-- Euclidean-distance test of `_broadcast_institution_awareness`:
`sqrt ((ax-ix)^2 + (ay-iy)^2) <= radius`. -/
noncomputable def within_radius (apos ipos : ℚ × ℚ) (radius : ℚ) : Prop :=
  Real.sqrt (((apos.1 - ipos.1) ^ 2 + (apos.2 - ipos.2) ^ 2 : ℚ) : ℝ) ≤ (radius : ℝ)

noncomputable instance (apos ipos : ℚ × ℚ) (radius : ℚ) :
    Decidable (within_radius apos ipos radius) :=
  Real.decidableLE _ _

/-- Initial radius broadcast (`_broadcast_institution_awareness`), restricted
to a single agent: each institution within the radius is added to the
agent's awareness set. -/
noncomputable def broadcast_aware (insts : Insts) (apos : ℚ × ℚ) (radius : ℚ)
    (aware : List String) : List String :=
  insts.foldl
    (fun acc p => if within_radius apos p.2.position radius then set_add acc p.1 else acc)
    aware

/-- `np.random.uniform a b` given the next unit draw `x`. -/
def np_uniform (a b x : ℚ) : ℚ := a + (b - a) * x

/-- Replace the member set of the registry entry with the given key. -/
def update_members (insts : Insts) (n : String) (ms : List ℕ) : Insts :=
  insts.map (fun p => (p.1, if p.1 = n then { p.2 with members := ms } else p.2))

/-- State threaded through `_assign_initial_memberships`: the registry, the
agent being processed, and the position `k` in the random stream. -/
structure InitState : Type where
  insts : Insts
  agent : Agent
  k : ℕ

/-- One aware institution processed by `_assign_initial_memberships`.
Python short-circuit: the `np.random.random()` draw is consumed only when
`fit > 0`; the uniform hours draw only on a successful join of a non-work
institution. -/
def assign_step (u : ℕ → ℚ) (s : InitState) (n : String) : InitState :=
  match assoc_find? s.insts n with
  | none => s
  | some inst =>
    if 0 < value_dot inst.culture s.agent.values then
      if u s.k < 0.3 ∧ inst.members.length < inst.size then
        let hours : ℚ :=
          if inst.practice_type = "work" then 40
          else if inst.practice_type = "church" then np_uniform 3 8 (u (s.k + 1))
          else if inst.practice_type = "club" then np_uniform 2 6 (u (s.k + 1))
          else if inst.practice_type = "education" then np_uniform 10 20 (u (s.k + 1))
          else np_uniform 5 15 (u (s.k + 1))
        { insts := update_members s.insts n (set_add inst.members s.agent.id),
          agent := { s.agent with
            institutions := set_add s.agent.institutions n,
            time_allocation := s.agent.time_allocation ++ [(n, hours)] },
          k := if inst.practice_type = "work" then s.k + 1 else s.k + 2 }
      else { s with k := s.k + 1 }
    else s

/-- `_assign_initial_memberships` for one agent: fold over its awareness
set. -/
def assign_initial_agent (u : ℕ → ℚ) (ag : Agent) (insts : Insts) (k : ℕ) : InitState :=
  ag.aware_of.foldl (assign_step u) ⟨insts, ag, k⟩

/-- `_assign_initial_memberships` over the whole agent list, threading the
registry and the random stream. -/
def assign_initial (u : ℕ → ℚ) : List Agent → Insts → ℕ → List Agent × Insts × ℕ
  | [], insts, k => ([], insts, k)
  | ag :: rest, insts, k =>
    let s := assign_initial_agent u ag insts k
    let r := assign_initial u rest s.insts s.k
    (s.agent :: r.1, r.2.1, r.2.2)

/-- Sum of an agent's allocated hours (`Agent.get_total_time_allocated`). -/
def total_time_allocated (al : Alloc) : ℚ := (al.map Prod.snd).sum

/-- The membership-mutation block of `CulturalDynamicsModel.step`
(lines 365-381): remove the agent from institutions it left, try to join
newly selected institutions only while below capacity, then replace the
agent's allocation and membership set and reset its counter. -/
def apply_reallocation (insts : Insts) (ag : Agent) (new_allocation : Alloc) :
    Insts × Agent :=
  let old_insts := ag.institutions
  let new_insts := new_allocation.map Prod.fst
  let insts1 := insts.map (fun p =>
    (p.1, if p.1 ∈ old_insts ∧ p.1 ∉ new_insts
          then { p.2 with members := p.2.members.filter (fun m => m ≠ ag.id) }
          else p.2))
  let insts2 := insts1.map (fun p =>
    (p.1, if p.1 ∈ new_insts ∧ p.1 ∉ old_insts ∧ p.2.members.length < p.2.size
          then { p.2 with members := set_add p.2.members ag.id }
          else p.2))
  (insts2,
   { ag with time_allocation := new_allocation, institutions := new_insts,
             timesteps_since_change := 0 })

/-- The social graph: an association list from normalised unordered agent
pairs to the optional `weight` attribute (the initial Erdos-Renyi edges
carry no weight, hence `none`). -/
abbrev SocialGraph := List ((ℕ × ℕ) × Option ℚ)

/-- Normalised unordered edge key. -/
def ekey (i j : ℕ) : ℕ × ℕ := if i ≤ j then (i, j) else (j, i)

/-- The edge update of `_rebuild_network_with_institutions`: if the edge
exists, add `w` to its weight (a missing weight attribute counts as 0);
otherwise create the edge with weight `w`. -/
def graph_add_weight (g : SocialGraph) (i j : ℕ) (w : ℚ) : SocialGraph :=
  match assoc_find? g (ekey i j) with
  | some wOld =>
    g.map (fun e => if e.1 = ekey i j then (e.1, some (wOld.getD 0 + w)) else e)
  | none => g ++ [(ekey i j, some w)]

/-- All ordered pairs `(members[i], members[j])` with `i < j`, in the order
of the double loop of `_rebuild_network_with_institutions`. -/
def pairsOf {α : Type} : List α → List (α × α)
  | [] => []
  | x :: xs => xs.map (fun y => (x, y)) ++ pairsOf xs

/-- `self.agents[i].time_allocation` (agents are indexed by id). -/
def agent_alloc (agents : List Agent) (i : ℕ) : Alloc :=
  match agents.get? i with
  | some a => a.time_allocation
  | none => []

/-- One institution's contribution in `_rebuild_network_with_institutions`.
NOTE the lookup key: the source reads `time_allocation.get(inst.name, 0)`
with the bare institution name, not the registry key `f"{type}_{name}"`. -/
def rebuild_inst (agents : List Agent) (g : SocialGraph) (inst : Institution) :
    SocialGraph :=
  (pairsOf inst.members).foldl
    (fun g' pr =>
      let time_i := alloc_get (agent_alloc agents pr.1) inst.name
      let time_j := alloc_get (agent_alloc agents pr.2) inst.name
      graph_add_weight g' pr.1 pr.2 ((time_i + time_j) / 2))
    g

/-- `_rebuild_network_with_institutions`: fold the overlay step over the
registry in insertion order. -/
def rebuild_network_with_institutions (agents : List Agent) (insts : Insts)
    (g : SocialGraph) : SocialGraph :=
  insts.foldl (fun g' p => rebuild_inst agents g' p.2) g

/-- Neighbors of node `i` in the social graph. -/
def graph_neighbors (g : SocialGraph) (i : ℕ) : List ℕ :=
  g.filterMap (fun e =>
    if e.1.1 = i then some e.1.2 else if e.1.2 = i then some e.1.1 else none)

/-- `CulturalDynamicsModel.update_awareness`: absorb the membership set of
every graph neighbor whose communication strength is at least 0.2. -/
def update_awareness (agents : List Agent) (g : SocialGraph) (ag : Agent) : Agent :=
  let aware :=
    (graph_neighbors g ag.id).foldl
      (fun acc nb =>
        match agents.get? nb with
        | none => acc
        | some nbAg =>
          if 0.2 ≤ nbAg.communication_strength
          then nbAg.institutions.foldl set_add acc
          else acc)
      ag.aware_of
  { ag with aware_of := aware }

/-- `calculate_institution_utility`: diminishing-returns transform
`hours ** (1 / dim_factor)` times the benefit-value dot product, plus the
work income term or minus the non-work cost term.  Utility is 0 for
`hours <= 0` or an unknown institution.  (On a practice type outside the
catalog Python would raise `KeyError`; that branch returns 0 here and is
never relied on.) -/
noncomputable def calculate_institution_utility (insts : Insts) (ag : Agent)
    (inst_name : String) (hours : ℝ) : ℝ :=
  if hours ≤ 0 then 0 else
  match assoc_find? insts inst_name with
  | none => 0
  | some inst =>
    match practice_profiles inst.practice_type with
    | none => 0
    | some profile =>
      let effective : ℝ := hours ^ (1 / (profile.diminishing_returns_factor : ℝ))
      let base : ℝ := (value_dot profile.value_benefits_per_hour ag.values : ℝ) * effective
      if inst.practice_type = "work" then
        base + hours * (inst.money_income_per_hour : ℝ) * (ag.values ValueDim.wealth : ℝ) * 0.01
      else
        base - hours * (inst.money_cost_per_hour : ℝ) * (ag.values ValueDim.wealth : ℝ) * 0.01

/-- `calculate_marginal_utility`: utility gain of one more hour. -/
noncomputable def calculate_marginal_utility (insts : Insts) (ag : Agent)
    (inst_name : String) (current_hours : ℝ) : ℝ :=
  calculate_institution_utility insts ag inst_name (current_hours + 1) -
  calculate_institution_utility insts ag inst_name current_hours

/-- The per-practice-type allocation caps of `optimize_allocation`
(`max_hours.get(practice_type, 50)`). -/
def max_hours (t : String) : ℚ :=
  if t = "work" then 60
  else if t = "church" then 20
  else if t = "club" then 15
  else if t = "political_org" then 30
  else if t = "education" then 40
  else if t = "community_center" then 50
  else 50

/-- Income already committed by the running allocation (institutions missing
from the registry are skipped). -/
def total_income (insts : Insts) (aware : List String) (alloc : String → ℚ) : ℚ :=
  (aware.map (fun i =>
    match assoc_find? insts i with
    | some inst => alloc i * inst.money_income_per_hour
    | none => 0)).sum

/-- Cost already committed by the running allocation. -/
def total_costs (insts : Insts) (aware : List String) (alloc : String → ℚ) : ℚ :=
  (aware.map (fun i =>
    match assoc_find? insts i with
    | some inst => alloc i * inst.money_cost_per_hour
    | none => 0)).sum

/-- The entry the greedy loop computes for one aware institution: `none` for
a stale name, the sentinel `-999` when the cap is reached or (for non-work
institutions) when the projected balance cannot afford the next hour, and
the marginal utility otherwise. -/
noncomputable def mu_entry (insts : Insts) (ag : Agent) (alloc : String → ℚ)
    (n : String) : Option (String × ℝ) :=
  match assoc_find? insts n with
  | none => none
  | some inst =>
    if max_hours inst.practice_type ≤ alloc n then some (n, -999)
    else if inst.practice_type ≠ "work" ∧
        ag.money_budget + total_income insts ag.aware_of alloc -
          total_costs insts ag.aware_of alloc - inst.money_cost_per_hour < 0 then
      some (n, -999)
    else some (n, calculate_marginal_utility insts ag n ((alloc n : ℚ) : ℝ))

/-- The `marginal_utils` dict of one loop iteration, in awareness order. -/
noncomputable def marginal_utils (insts : Insts) (ag : Agent) (alloc : String → ℚ) :
    List (String × ℝ) :=
  ag.aware_of.filterMap (mu_entry insts ag alloc)

/-- Python `max` over the dict values (0 on an empty list, never used). -/
noncomputable def list_max : List ℝ → ℝ
  | [] => 0
  | x :: xs => xs.foldl max x

/-- Python `max(d, key=d.get)`: the first entry attaining the maximal value. -/
noncomputable def arg_max : List (String × ℝ) → Option (String × ℝ)
  | [] => none
  | p :: ps => some (ps.foldl (fun best q => if best.2 < q.2 then q else best) p)

/-- The greedy hill-climbing loop of `optimize_allocation`: up to
`time_budget` iterations, each assigning one hour to the institution with
the greatest marginal utility, stopping when the budget is spent, the dict
is empty, or no marginal utility exceeds 0.005. -/
noncomputable def opt_loop (insts : Insts) (ag : Agent) :
    ℕ → (String → ℚ) → ℚ → (String → ℚ)
  | 0, alloc, _ => alloc
  | fuel + 1, alloc, t =>
    if t ≤ 0 then alloc
    else
      match arg_max (marginal_utils insts ag alloc) with
      | none => alloc
      | some best =>
        if list_max ((marginal_utils insts ag alloc).map Prod.snd) ≤ 0.005 then alloc
        else opt_loop insts ag fuel (fun n => if n = best.1 then alloc n + 1 else alloc n) (t - 1)

/-- The allocation function reached by the greedy loop of
`optimize_allocation`, started from zero with the full time budget. -/
noncomputable def opt_final (insts : Insts) (ag : Agent) : String → ℚ :=
  opt_loop insts ag ag.time_budget (fun _ => 0) (ag.time_budget : ℚ)

/-- `optimize_allocation`: run the greedy loop from the zero allocation and
keep only the entries of at least half an hour. -/
noncomputable def optimize_allocation (insts : Insts) (ag : Agent) : Alloc :=
  ag.aware_of.filterMap (fun n =>
    if (0.5 : ℚ) ≤ opt_final insts ag n then some (n, opt_final insts ag n) else none)

/-- The per-tick history series of the model (`timestep` plus, for each
catalog practice type, average hours and participation rate). -/
structure History : Type where
  timestep : List ℤ
  avg_hours : String → List ℚ
  participation_rate : String → List ℚ

/-- The mutable state of `CulturalDynamicsModel` that the tick loop
touches. -/
structure SimState : Type where
  n_agents : ℕ
  agents : List Agent
  insts : Insts
  graph : SocialGraph
  reallocation_frequency : ℕ
  history : History
  timestep : ℤ

/-- Hours one agent allocates to institutions of the given practice type
(stale institution names contribute nothing). -/
def practice_hours (insts : Insts) (al : Alloc) (pt : String) : ℚ :=
  (al.map (fun e =>
    match assoc_find? insts e.1 with
    | some inst => if inst.practice_type = pt then e.2 else 0
    | none => 0)).sum

/-- Whether an agent has any allocation entry of the given practice type. -/
def participates (insts : Insts) (al : Alloc) (pt : String) : Bool :=
  al.any (fun e =>
    match assoc_find? insts e.1 with
    | some inst => inst.practice_type = pt
    | none => false)

/-- `_record_state`: append the current timestep and, per catalog practice
type, the average hours and the participation rate. -/
def record_state (s : SimState) : SimState :=
  let h :=
    { timestep := s.history.timestep ++ [s.timestep]
      avg_hours := fun pt =>
        if pt ∈ catalog then
          s.history.avg_hours pt ++
            [((s.agents.map (fun a => practice_hours s.insts a.time_allocation pt)).sum) /
              (s.n_agents : ℚ)]
        else s.history.avg_hours pt
      participation_rate := fun pt =>
        if pt ∈ catalog then
          s.history.participation_rate pt ++
            [(((s.agents.filter
                (fun a => participates s.insts a.time_allocation pt)).length : ℚ)) /
              (s.n_agents : ℚ)]
        else s.history.participation_rate pt : History }
  { s with history := h }

/-- Processing of one agent inside `step`: bump its counter, diffuse
awareness, and if the counter reached the reallocation frequency, compute a
fresh allocation and apply the membership-mutation protocol. -/
noncomputable def step_agent (s : SimState) (i : ℕ) : SimState :=
  match s.agents.get? i with
  | none => s
  | some ag0 =>
    let ag1 := { ag0 with timesteps_since_change := ag0.timesteps_since_change + 1 }
    let ag2 := update_awareness s.agents s.graph ag1
    if s.reallocation_frequency ≤ ag2.timesteps_since_change then
      let na := optimize_allocation s.insts ag2
      let r := apply_reallocation s.insts ag2 na
      { s with agents := s.agents.set i r.2, insts := r.1 }
    else
      { s with agents := s.agents.set i ag2 }

/-- `CulturalDynamicsModel.step`: process the agents in the drawn
permutation order, rebuild the social graph, record the state, and advance
the tick counter. -/
noncomputable def step (s : SimState) (perm : List ℕ) : SimState :=
  let s1 := perm.foldl step_agent s
  let s2 := { s1 with
    graph := rebuild_network_with_institutions s1.agents s1.insts s1.graph }
  let s3 := record_state s2
  { s3 with timestep := s3.timestep + 1 }

/-- N ticks, one drawn permutation per tick. -/
noncomputable def run_steps (s : SimState) : List (List ℕ) → SimState
  | [] => s
  | p :: ps => run_steps (step s p) ps

/-! ## Concrete fixtures used by counterexamples and witnesses -/

/-- The zero value vector. -/
def zero_values : ValueDim → ℚ := fun _ => 0

/-- A value vector with `community = 1` and everything else 0 (possible
output of the clipped normal sampling). -/
def community_values : ValueDim → ℚ := fun d =>
  match d with
  | ValueDim.community => 1
  | _ => 0

/-- A value vector with `leisure = 1` and everything else 0. -/
def leisure_values : ValueDim → ℚ := fun d =>
  match d with
  | ValueDim.leisure => 1
  | _ => 0

/-- A baseline agent matching the `Agent.__init__` constants
(`time_budget = 168`, `timesteps_since_change = 100`); the sampled fields
get concrete admissible values. -/
def base_agent : Agent :=
  { id := 0, position := (0, 0), values := zero_values, time_budget := 168,
    money_budget := 1000, time_allocation := [], institutions := [],
    aware_of := [], communication_strength := 0.9, timesteps_since_change := 100 }

/-- A workplace configured as in the app's quick-add button: the registry
key is `"work_Acme"` while `Institution.name` is the bare `"Acme"`. -/
def cx2_inst : Institution :=
  { name := "Acme", practice_type := "work", size := 40, members := [0, 1],
    culture := zero_values, money_cost_per_hour := 0, money_income_per_hour := 25,
    position := (0, 0) }

def cx2_insts : Insts := [("work_Acme", cx2_inst)]

/-- Two members of the workplace, each allocating 40 hours to it under the
registry key. -/
def cx2_agent (i : ℕ) : Agent :=
  { base_agent with
      id := i
      time_allocation := [("work_Acme", 40)]
      institutions := ["work_Acme"]
      aware_of := ["work_Acme"] }

def cx2_agents : List Agent := [cx2_agent 0, cx2_agent 1]

/-- A club at capacity 1 whose single slot is taken by agent 5. -/
def cx3_inst : Institution :=
  { name := "Chess", practice_type := "club", size := 1, members := [5],
    culture := zero_values, money_cost_per_hour := 5, money_income_per_hour := 0,
    position := (0, 0) }

def cx3_insts : Insts := [("club_Chess", cx3_inst)]

def cx3_agent : Agent := { base_agent with aware_of := ["club_Chess"] }

/-- A fresh allocation selecting the full club. -/
def cx3_alloc : Alloc := [("club_Chess", 3)]

/-- A work institution at position (1/2, 1/2) with a community-friendly
culture, capacity 10. -/
def cx1_inst (nm : String) : Institution :=
  { name := nm, practice_type := "work", size := 10, members := [],
    culture := community_values, money_cost_per_hour := 0,
    money_income_per_hour := 25, position := (0, 0) }

/-- Five such workplaces. -/
def cx1_insts : Insts :=
  [("work_A", cx1_inst "A"), ("work_B", cx1_inst "B"), ("work_C", cx1_inst "C"),
   ("work_D", cx1_inst "D"), ("work_E", cx1_inst "E")]

/-- An agent co-located with the five workplaces. -/
def cx1_agent : Agent :=
  { base_agent with values := community_values }

/-- A small concrete simulation state for witnesses. -/
def w9_state : SimState :=
  { n_agents := 1, agents := [base_agent], insts := cx3_insts, graph := [],
    reallocation_frequency := 4,
    history := { timestep := [], avg_hours := fun _ => [],
                 participation_rate := fun _ => [] },
    timestep := 0 }

/-- A costly club (10 $/hr, no income). -/
def cx7_inst : Institution :=
  { name := "Costly", practice_type := "club", size := 30, members := [],
    culture := zero_values, money_cost_per_hour := 10, money_income_per_hour := 0,
    position := (0, 0) }

def cx7_insts : Insts := [("club_Costly", cx7_inst)]

/-- An agent whose money budget (5) cannot afford even one hour of the
club's cost (10). -/
def cx7_agent : Agent :=
  { base_agent with money_budget := 5, aware_of := ["club_Costly"] }

/-- A workplace with no income, for the diminishing-returns counterexample. -/
def cx4_inst : Institution :=
  { name := "W", practice_type := "work", size := 40, members := [],
    culture := zero_values, money_cost_per_hour := 0, money_income_per_hour := 0,
    position := (0, 0) }

def cx4_insts : Insts := [("work_W", cx4_inst)]

/-- An agent who only values leisure: the work benefit-value dot product is
the negative leisure rate -0.05. -/
def cx4_agent : Agent :=
  { base_agent with values := leisure_values, aware_of := ["work_W"] }

/-- A church, for the diminishing-returns witness. -/
def cx4w_inst : Institution :=
  { name := "K", practice_type := "church", size := 30, members := [],
    culture := zero_values, money_cost_per_hour := 2, money_income_per_hour := 0,
    position := (0, 0) }

def cx4w_insts : Insts := [("church_K", cx4w_inst)]

def cx4w_agent : Agent :=
  { base_agent with values := community_values, aware_of := ["church_K"] }

/-- A neighbor agent with strength 0.8 and one membership. -/
def w10_nb : Agent :=
  { base_agent with
      id := 1
      institutions := ["club_Chess"]
      communication_strength := 0.8 }

def w10_agents : List Agent := [base_agent, w10_nb]

def w10_graph : SocialGraph := [((0, 1), none)]

/-! ## Helper lemmas -/

theorem assoc_find?_map_val {κ α β : Type} [DecidableEq κ] (g : κ × α → β)
    (l : List (κ × α)) (k : κ) :
    assoc_find? (l.map (fun p => (p.1, g p))) k
      = (assoc_find? l k).map (fun v => g (k, v)) := by
  induction l with
  | nil => rfl
  | cons p ps ih =>
    by_cases h : p.1 = k
    · subst h; simp [assoc_find?]
    · simp [assoc_find?, h, ih]

theorem assoc_find?_of_mem_nodup {α : Type} {l : List (String × α)} {q : String × α}
    (hnd : (l.map Prod.fst).Nodup) (hq : q ∈ l) : assoc_find? l q.1 = some q.2 := by
  induction l with
  | nil => cases hq
  | cons p ps ih =>
    rcases List.mem_cons.mp hq with rfl | hq'
    · simp [assoc_find?]
    · have hne : p.1 ≠ q.1 := by
        intro h
        exact (List.nodup_cons.mp (by simpa using hnd)).1
          (h ▸ List.mem_map_of_mem Prod.fst hq')
      simp [assoc_find?, hne,
        ih (List.nodup_cons.mp (by simpa using hnd)).2 hq']

theorem set_add_length_le {α : Type} [DecidableEq α] (l : List α) (x : α) :
    (set_add l x).length ≤ l.length + 1 := by
  unfold set_add
  split
  · exact Nat.le_succ _
  · simp

theorem mem_set_add_of_mem {α : Type} [DecidableEq α] {l : List α} {x y : α}
    (h : y ∈ l) : y ∈ set_add l x := by
  unfold set_add; split
  · exact h
  · exact List.mem_append_left _ h

theorem mem_set_add_self {α : Type} [DecidableEq α] (l : List α) (x : α) :
    x ∈ set_add l x := by
  unfold set_add; split
  · assumption
  · exact List.mem_append_right _ (List.mem_singleton.mpr rfl)

/-! ## Claim C2 -/

/-- Claim C2 evaluated at a failing input: with two members each allocating
40 hours under the registry key `"work_Acme"`, the rebuild looks the hours
up by the bare name `"Acme"`, so it creates the pair's edge with weight 0,
although the average of the two members' allocated hours at the institution
is 40. -/
theorem C2_rebuild_weight_bug :
    assoc_find? (rebuild_network_with_institutions cx2_agents cx2_insts []) (0, 1)
      = some (some 0) ∧
    (alloc_get (cx2_agent 0).time_allocation "work_Acme" +
      alloc_get (cx2_agent 1).time_allocation "work_Acme") / 2 = 40 ∧
    assoc_find? (rebuild_network_with_institutions cx2_agents cx2_insts []) (0, 1)
      ≠ some (some 40) := by
  have h : rebuild_network_with_institutions cx2_agents cx2_insts []
      = [((0, 1), some 0)] := by
    simp [rebuild_network_with_institutions, rebuild_inst, cx2_insts,
      cx2_agents, cx2_agent, cx2_inst, base_agent, pairsOf, agent_alloc,
      alloc_get, assoc_find?, graph_add_weight, ekey]
  rw [h]
  simp [assoc_find?, alloc_get, cx2_agent, base_agent]

/-! ## Claim C3 -/

/-- Claim C3 counterexample: with the club already at capacity, the agent's
own membership set does receive the institution (the member set of the
institution is what stays unchanged), contradicting the claim that the
institution is not added to the agent's membership set. -/
theorem C3_counterexample :
    cx3_inst.size ≤ cx3_inst.members.length ∧
    "club_Chess" ∈ (apply_reallocation cx3_insts cx3_agent cx3_alloc).2.institutions ∧
    ((assoc_find? (apply_reallocation cx3_insts cx3_agent cx3_alloc).1
        "club_Chess").map Institution.members) = some [5] := by decide

/-- Claim C3 (amended): when a newly selected institution is already at
capacity, the join fails silently on the institution side — the agent is
not added to the institution's member set — while the agent's own
membership set and its `time_allocation` still record the institution. -/
theorem C3_capacity_join_fails (insts : Insts) (ag : Agent) (na : Alloc)
    (n : String) (inst : Institution)
    (hl : assoc_find? insts n = some inst)
    (hfull : inst.size ≤ inst.members.length)
    (hnew : n ∈ na.map Prod.fst) (hold : n ∉ ag.institutions) :
    ((assoc_find? (apply_reallocation insts ag na).1 n).map Institution.members)
      = some inst.members ∧
    n ∈ (apply_reallocation insts ag na).2.institutions ∧
    (apply_reallocation insts ag na).2.time_allocation = na := by
  have h2 : ¬ inst.members.length < inst.size := Nat.not_lt.mpr hfull
  refine ⟨?_, by simpa [apply_reallocation] using hnew, rfl⟩
  show ((assoc_find? ((insts.map _).map _) n).map Institution.members) = some inst.members
  rw [assoc_find?_map_val, assoc_find?_map_val, hl]
  simp [hold, hnew, h2]

/-- Claim C1 counterexample: the initial membership assignment enforces no
time budget.  An agent co-located with five workplaces (awareness radius
0.3, distance 0), with community-fit 1 at each and random draws 0 (< 0.3),
joins all five and is assigned 5 x 40 = 200 hours, exceeding the 168-hour
budget in the state immediately after construction. -/
theorem C1_counterexample :
    cx1_agent.time_budget = 168 ∧
    ¬ (total_time_allocated
        (assign_initial_agent (fun _ => 0)
          { cx1_agent with
              aware_of := broadcast_aware cx1_insts cx1_agent.position (3/10) [] }
          cx1_insts 0).agent.time_allocation ≤ 168) := by
  constructor
  · rfl
  · have hw : within_radius (0 : ℚ × ℚ) (0 : ℚ × ℚ) (3/10) := by
      unfold within_radius
      norm_num [Prod.fst_zero, Prod.snd_zero, Real.sqrt_zero]
    have hb : broadcast_aware cx1_insts cx1_agent.position (3/10) [] =
        ["work_A", "work_B", "work_C", "work_D", "work_E"] := by
      simp [broadcast_aware, cx1_insts, cx1_inst, cx1_agent, base_agent, hw, set_add]
    rw [hb]
    have h03 : (0 : ℚ) < 0.3 := by norm_num
    simp [assign_initial_agent, assign_step, assoc_find?, cx1_insts,
      cx1_inst, cx1_agent, base_agent, value_dot, community_values,
      update_members, set_add, np_uniform, total_time_allocated, h03,
      List.foldl_cons, List.foldl_nil]
    norm_num

theorem keys_update_members (insts : Insts) (n : String) (ms : List ℕ) :
    (update_members insts n ms).map Prod.fst = insts.map Prod.fst := by
  simp [update_members, List.map_map, Function.comp]

theorem assign_step_capacity (u : ℕ → ℚ) (s : InitState) (n : String)
    (hnd : (s.insts.map Prod.fst).Nodup)
    (hcap : ∀ p ∈ s.insts, p.2.members.length ≤ p.2.size) :
    ((assign_step u s n).insts.map Prod.fst).Nodup ∧
    ∀ p ∈ (assign_step u s n).insts, p.2.members.length ≤ p.2.size := by
  unfold assign_step
  cases hf : assoc_find? s.insts n with
  | none => exact ⟨hnd, hcap⟩
  | some inst =>
    dsimp only
    split
    · split
      · next hjoin =>
        dsimp only
        constructor
        · rw [keys_update_members]; exact hnd
        · intro p hp
          rcases List.mem_map.mp hp with ⟨q, hq, rfl⟩
          dsimp only
          by_cases hqn : q.1 = n
          · rw [if_pos hqn]
            have hfq : assoc_find? s.insts q.1 = some q.2 :=
              assoc_find?_of_mem_nodup hnd hq
            rw [hqn, hf] at hfq
            obtain rfl : inst = q.2 := Option.some.inj hfq
            show (set_add q.2.members s.agent.id).length ≤ q.2.size
            calc (set_add q.2.members s.agent.id).length
                ≤ q.2.members.length + 1 := set_add_length_le _ _
              _ ≤ q.2.size := hjoin.2
          · rw [if_neg hqn]; exact hcap q hq
      · exact ⟨hnd, hcap⟩
    · exact ⟨hnd, hcap⟩

theorem assign_fold_capacity (u : ℕ → ℚ) (l : List String) :
    ∀ s : InitState, (s.insts.map Prod.fst).Nodup →
      (∀ p ∈ s.insts, p.2.members.length ≤ p.2.size) →
      ((l.foldl (assign_step u) s).insts.map Prod.fst).Nodup ∧
      ∀ p ∈ (l.foldl (assign_step u) s).insts, p.2.members.length ≤ p.2.size := by
  induction l with
  | nil => exact fun s h1 h2 => ⟨h1, h2⟩
  | cons a as ih =>
    intro s h1 h2
    have h := assign_step_capacity u s a h1 h2
    exact ih _ h.1 h.2

theorem assign_initial_capacity (u : ℕ → ℚ) (agents : List Agent) :
    ∀ (insts : Insts) (k : ℕ), (insts.map Prod.fst).Nodup →
      (∀ p ∈ insts, p.2.members.length ≤ p.2.size) →
      (((assign_initial u agents insts k).2.1.map Prod.fst).Nodup ∧
       ∀ p ∈ (assign_initial u agents insts k).2.1,
         p.2.members.length ≤ p.2.size) := by
  induction agents with
  | nil => intro insts k h1 h2; exact ⟨h1, h2⟩
  | cons ag rest ih =>
    intro insts k h1 h2
    have h := assign_fold_capacity u ag.aware_of ⟨insts, ag, k⟩ h1 h2
    exact ih _ _ h.1 h.2

theorem cond_join_le (inst : Institution) (i : ℕ) (c : Prop) [Decidable c]
    (hc : c → inst.members.length < inst.size)
    (h : inst.members.length ≤ inst.size) :
    (if c then { inst with members := set_add inst.members i }
     else inst).members.length ≤
    (if c then { inst with members := set_add inst.members i } else inst).size := by
  split
  · next hcc =>
    show (set_add inst.members i).length ≤ inst.size
    calc (set_add inst.members i).length
        ≤ inst.members.length + 1 := set_add_length_le _ _
      _ ≤ inst.size := hc hcc
  · exact h

theorem cond_leave_le (inst : Institution) (i : ℕ) (c : Prop) [Decidable c]
    (h : inst.members.length ≤ inst.size) :
    (if c then { inst with members := inst.members.filter (fun m => m ≠ i) }
     else inst).members.length ≤
    (if c then { inst with members := inst.members.filter (fun m => m ≠ i) }
     else inst).size := by
  split
  · show (inst.members.filter (fun m => m ≠ i)).length ≤ inst.size
    exact le_trans (List.length_filter_le _ _) h
  · exact h

theorem apply_reallocation_capacity (insts : Insts) (ag : Agent) (na : Alloc)
    (hcap : ∀ p ∈ insts, p.2.members.length ≤ p.2.size) :
    ∀ p ∈ (apply_reallocation insts ag na).1, p.2.members.length ≤ p.2.size := by
  intro p hp
  unfold apply_reallocation at hp
  dsimp only at hp
  rcases List.mem_map.mp hp with ⟨q, hq, rfl⟩
  rcases List.mem_map.mp hq with ⟨r, hr, rfl⟩
  have h0 := hcap r hr
  dsimp only
  exact cond_join_le _ ag.id _ (fun h => h.2.2) (cond_leave_le r.2 ag.id _ h0)

/-! ## Claim C5 -/

/-- Claim C5: member count never exceeds capacity.  A freshly created
institution starts empty; the initial-membership assignment and the
per-tick join path both guard every insertion with a strict capacity
check, so they preserve the invariant. -/
theorem C5_capacity_invariant (name ptype : String) (size : ℕ)
    (cul : ValueDim → ℚ) (mc mi : ℚ) (pos : ℚ × ℚ) (u : ℕ → ℚ)
    (agents : List Agent) (insts : Insts) (k : ℕ) (ag : Agent) (na : Alloc)
    (hnd : (insts.map Prod.fst).Nodup)
    (hcap : ∀ p ∈ insts, p.2.members.length ≤ p.2.size) :
    (create_institution name ptype size cul mc mi pos).members.length ≤
      (create_institution name ptype size cul mc mi pos).size ∧
    (∀ p ∈ (assign_initial u agents insts k).2.1,
      p.2.members.length ≤ p.2.size) ∧
    (∀ p ∈ (apply_reallocation insts ag na).1,
      p.2.members.length ≤ p.2.size) :=
  ⟨Nat.zero_le _, (assign_initial_capacity u agents insts k hnd hcap).2,
   apply_reallocation_capacity insts ag na hcap⟩

/-- Witness for C5 at a concrete one-club registry. -/
theorem C5_capacity_invariant_witness :
    ((cx3_insts.map Prod.fst).Nodup ∧
      ∀ p ∈ cx3_insts, p.2.members.length ≤ p.2.size) ∧
    ∀ p ∈ (apply_reallocation cx3_insts cx3_agent cx3_alloc).1,
      p.2.members.length ≤ p.2.size :=
  ⟨⟨by decide, by decide⟩,
   (C5_capacity_invariant "Chess" "club" 1 zero_values 5 0 (0, 0) (fun _ => 0)
      [cx3_agent] cx3_insts 0 cx3_agent cx3_alloc (by decide) (by decide)).2.2⟩

/-! ## Claims C6 and C10 -/

theorem foldl_mem_mono {α β : Type} (f : List α → β → List α)
    (hf : ∀ acc b, ∀ x ∈ acc, x ∈ f acc b) :
    ∀ (l : List β) (acc : List α), ∀ x ∈ acc, x ∈ l.foldl f acc := by
  intro l
  induction l with
  | nil => exact fun acc x hx => hx
  | cons b bs ih => exact fun acc x hx => ih (f acc b) x (hf acc b x hx)

theorem foldl_mem_of_mem {α β : Type} (f : List α → β → List α)
    (hmono : ∀ acc b, ∀ y ∈ acc, y ∈ f acc b) (x : α) (nb : β)
    (habs : ∀ acc, x ∈ f acc nb) :
    ∀ (ns : List β) (acc : List α), nb ∈ ns → x ∈ ns.foldl f acc := by
  intro ns
  induction ns with
  | nil => intro acc h; exact absurd h (List.not_mem_nil nb)
  | cons m ms ih =>
    intro acc hm
    rcases List.mem_cons.mp hm with h | h
    · subst h
      exact foldl_mem_mono f hmono ms (f acc nb) x (habs acc)
    · exact ih _ h

theorem mem_foldl_set_add {α : Type} [DecidableEq α] (l : List α) (acc : List α)
    (x : α) (h : x ∈ l ∨ x ∈ acc) : x ∈ l.foldl set_add acc := by
  induction l generalizing acc with
  | nil =>
    rcases h with h | h
    · exact absurd h (List.not_mem_nil x)
    · exact h
  | cons a as ih =>
    rcases h with h | h
    · rcases List.mem_cons.mp h with rfl | h
      · exact ih (set_add acc x) (Or.inr (mem_set_add_self acc x))
      · exact ih _ (Or.inl h)
    · exact ih _ (Or.inr (mem_set_add_of_mem h))

theorem update_awareness_mono (agents : List Agent) (g : SocialGraph) (ag : Agent) :
    ∀ x ∈ ag.aware_of, x ∈ (update_awareness agents g ag).aware_of := by
  intro x hx
  unfold update_awareness
  dsimp only
  apply foldl_mem_mono _ ?_ _ _ x hx
  intro acc nb y hy
  cases agents.get? nb with
  | none => exact hy
  | some nbAg =>
    dsimp only
    split
    · exact mem_foldl_set_add _ _ _ (Or.inr hy)
    · exact hy

/-- Claim C6: awareness only grows.  Both awareness operations — the
initial radius broadcast and the per-tick neighbor diffusion — only add
institution identifiers to `aware_of`, never remove any. -/
theorem C6_awareness_monotone (agents : List Agent) (g : SocialGraph) (ag : Agent)
    (insts : Insts) (pos : ℚ × ℚ) (radius : ℚ) (aware : List String) :
    (∀ x ∈ ag.aware_of, x ∈ (update_awareness agents g ag).aware_of) ∧
    (∀ x ∈ aware, x ∈ broadcast_aware insts pos radius aware) := by
  refine ⟨update_awareness_mono agents g ag, ?_⟩
  intro x hx
  unfold broadcast_aware
  apply foldl_mem_mono _ ?_ _ _ x hx
  intro acc p y hy
  split
  · exact mem_set_add_of_mem hy
  · exact hy

/-- Witness for C6 on a concrete agent and registry. -/
theorem C6_awareness_monotone_witness :
    "club_Chess" ∈ (update_awareness [] [] cx3_agent).aware_of ∧
    "club_Chess" ∈ broadcast_aware cx1_insts (0, 0) (3/10) ["club_Chess"] :=
  ⟨(C6_awareness_monotone [] [] cx3_agent cx1_insts (0, 0) (3/10)
      ["club_Chess"]).1 "club_Chess" (by decide),
   (C6_awareness_monotone [] [] cx3_agent cx1_insts (0, 0) (3/10)
      ["club_Chess"]).2 "club_Chess" (by decide)⟩

/-- Claim C10: every agent's communication strength is drawn from
[0.5, 1.0], so the diffusion filter (threshold 0.2) never excludes a
neighbor: the agent's awareness set absorbs every neighbor's entire
membership set on every diffusion pass. -/
theorem C10_threshold_never_excludes (agents : List Agent) (g : SocialGraph)
    (ag : Agent)
    (hs : ∀ a ∈ agents, (0.5 : ℚ) ≤ a.communication_strength ∧
      a.communication_strength ≤ 1) :
    ∀ nb ∈ graph_neighbors g ag.id, ∀ nbAg, agents.get? nb = some nbAg →
      ∀ x ∈ nbAg.institutions, x ∈ (update_awareness agents g ag).aware_of := by
  intro nb hnb nbAg hget x hx
  have hmem : nbAg ∈ agents := List.get?_mem hget
  have hcomm : (0.2 : ℚ) ≤ nbAg.communication_strength := by
    have := (hs nbAg hmem).1
    linarith
  unfold update_awareness
  dsimp only
  apply foldl_mem_of_mem _ ?_ x nb ?_ _ _ hnb
  · intro acc b y hy
    cases agents.get? b with
    | none => exact hy
    | some a2 =>
      dsimp only
      split
      · exact mem_foldl_set_add _ _ _ (Or.inr hy)
      · exact hy
  · intro acc
    rw [hget]
    dsimp only
    rw [if_pos hcomm]
    exact mem_foldl_set_add _ _ _ (Or.inl hx)

/-- Witness for C10: a neighbor with strength 0.8 donates its whole
membership set. -/
theorem C10_threshold_never_excludes_witness :
    ((0.5 : ℚ) ≤ w10_nb.communication_strength ∧
      w10_nb.communication_strength ≤ 1) ∧
    "club_Chess" ∈ (update_awareness w10_agents w10_graph base_agent).aware_of := by
  refine ⟨⟨by norm_num [w10_nb, base_agent], by norm_num [w10_nb, base_agent]⟩, ?_⟩
  refine C10_threshold_never_excludes w10_agents w10_graph base_agent ?_ 1 ?_
    w10_nb rfl "club_Chess" ?_
  · intro a ha
    have ha' : a ∈ [base_agent, w10_nb] := ha
    rcases List.mem_cons.mp ha' with rfl | ha'
    · exact ⟨by norm_num [base_agent], by norm_num [base_agent]⟩
    · rcases List.mem_cons.mp ha' with rfl | ha'
      · exact ⟨by norm_num [w10_nb, base_agent], by norm_num [w10_nb, base_agent]⟩
      · exact absurd ha' (List.not_mem_nil a)
  · show (1 : ℕ) ∈ graph_neighbors w10_graph base_agent.id
    decide
  · decide

/-- Witness for the amended C3 at the concrete full club. -/
theorem C3_capacity_join_fails_witness :
    cx3_inst.size ≤ cx3_inst.members.length ∧
    ((assoc_find? (apply_reallocation cx3_insts cx3_agent cx3_alloc).1
        "club_Chess").map Institution.members) = some cx3_inst.members :=
  ⟨by decide,
   (C3_capacity_join_fails cx3_insts cx3_agent cx3_alloc "club_Chess" cx3_inst
     rfl (by decide) (by decide) (by decide)).1⟩

/-! ## Optimizer lemmas -/

theorem mu_entry_spec (insts : Insts) (ag : Agent) (alloc : String → ℚ)
    (n : String) (b : String × ℝ) (h : mu_entry insts ag alloc n = some b) :
    b.1 = n ∧ ∃ inst, assoc_find? insts n = some inst ∧
      (b.2 = -999 ∨
       (alloc n < max_hours inst.practice_type ∧
        b.2 = calculate_marginal_utility insts ag n ((alloc n : ℚ) : ℝ))) := by
  unfold mu_entry at h
  cases hf : assoc_find? insts n with
  | none => rw [hf] at h; exact absurd h (by simp)
  | some inst =>
    rw [hf] at h
    dsimp only at h
    by_cases h1 : max_hours inst.practice_type ≤ alloc n
    · rw [if_pos h1] at h
      obtain rfl := Option.some.inj h
      exact ⟨rfl, inst, rfl, Or.inl rfl⟩
    · rw [if_neg h1] at h
      by_cases h2 : inst.practice_type ≠ "work" ∧
          ag.money_budget + total_income insts ag.aware_of alloc -
            total_costs insts ag.aware_of alloc - inst.money_cost_per_hour < 0
      · rw [if_pos h2] at h
        obtain rfl := Option.some.inj h
        exact ⟨rfl, inst, rfl, Or.inl rfl⟩
      · rw [if_neg h2] at h
        obtain rfl := Option.some.inj h
        exact ⟨rfl, inst, rfl, Or.inr ⟨lt_of_not_le h1, rfl⟩⟩

theorem marginal_utils_mem (insts : Insts) (ag : Agent) (alloc : String → ℚ)
    {b : String × ℝ} (hb : b ∈ marginal_utils insts ag alloc) :
    b.1 ∈ ag.aware_of ∧ mu_entry insts ag alloc b.1 = some b := by
  rcases List.mem_filterMap.mp hb with ⟨n, hn, he⟩
  have hk := (mu_entry_spec insts ag alloc n b he).1
  subst hk
  exact ⟨hn, he⟩

theorem mu_entry_afford_sentinel (insts : Insts) (ag : Agent) (alloc : String → ℚ)
    (n : String) (inst : Institution) (hl : assoc_find? insts n = some inst)
    (hw : inst.practice_type ≠ "work")
    (hbal : ag.money_budget + total_income insts ag.aware_of alloc -
      total_costs insts ag.aware_of alloc - inst.money_cost_per_hour < 0) :
    mu_entry insts ag alloc n = some (n, -999) := by
  unfold mu_entry
  rw [hl]
  dsimp only
  by_cases h1 : max_hours inst.practice_type ≤ alloc n
  · rw [if_pos h1]
  · rw [if_neg h1, if_pos ⟨hw, hbal⟩]

theorem arg_max_aux_mem (p : String × ℝ) (ps : List (String × ℝ)) :
    ps.foldl (fun best q => if best.2 < q.2 then q else best) p ∈ p :: ps := by
  induction ps generalizing p with
  | nil => exact List.mem_singleton.mpr rfl
  | cons q qs ih =>
    simp only [List.foldl_cons]
    have h := ih (if p.2 < q.2 then q else p)
    rcases List.mem_cons.mp h with h' | h'
    · rw [h']
      split
      · exact List.mem_cons_of_mem _ (List.mem_cons_self _ _)
      · exact List.mem_cons_self _ _
    · exact List.mem_cons_of_mem _ (List.mem_cons_of_mem _ h')

theorem arg_max_aux_ge (p : String × ℝ) (ps : List (String × ℝ)) :
    p.2 ≤ (ps.foldl (fun best q => if best.2 < q.2 then q else best) p).2 ∧
    ∀ r ∈ ps, r.2 ≤ (ps.foldl (fun best q => if best.2 < q.2 then q else best) p).2 := by
  induction ps generalizing p with
  | nil => exact ⟨le_refl _, fun r hr => absurd hr (List.not_mem_nil r)⟩
  | cons q qs ih =>
    obtain ⟨ih1, ih2⟩ := ih (if p.2 < q.2 then q else p)
    simp only [List.foldl_cons]
    constructor
    · refine le_trans ?_ ih1
      split
      · next hlt => exact le_of_lt hlt
      · exact le_refl _
    · intro r hr
      rcases List.mem_cons.mp hr with rfl | hr
      · refine le_trans ?_ ih1
        split
        · exact le_refl _
        · next hnlt => exact le_of_not_lt hnlt
      · exact ih2 r hr

theorem arg_max_mem {l : List (String × ℝ)} {b : String × ℝ}
    (h : arg_max l = some b) : b ∈ l := by
  cases l with
  | nil => cases h
  | cons p ps =>
    obtain rfl := Option.some.inj h
    exact arg_max_aux_mem p ps

theorem arg_max_ge {l : List (String × ℝ)} {b : String × ℝ}
    (h : arg_max l = some b) : ∀ r ∈ l, r.2 ≤ b.2 := by
  cases l with
  | nil => cases h
  | cons p ps =>
    obtain rfl := Option.some.inj h
    intro r hr
    rcases List.mem_cons.mp hr with rfl | hr
    · exact (arg_max_aux_ge r ps).1
    · exact (arg_max_aux_ge p ps).2 r hr

theorem foldl_max_le {xs : List ℝ} : ∀ {x c : ℝ}, x ≤ c → (∀ y ∈ xs, y ≤ c) →
    xs.foldl max x ≤ c := by
  induction xs with
  | nil => intro x c hx _; exact hx
  | cons y ys ih =>
    intro x c hx hy
    simp only [List.foldl_cons]
    exact ih (max_le hx (hy y (List.mem_cons_self y ys)))
      (fun z hz => hy z (List.mem_cons_of_mem y hz))

theorem list_max_le {l : List ℝ} {c : ℝ} (hne : l ≠ []) (h : ∀ x ∈ l, x ≤ c) :
    list_max l ≤ c := by
  cases l with
  | nil => exact absurd rfl hne
  | cons x xs =>
    exact foldl_max_le (h x (List.mem_cons_self x xs))
      (fun y hy => h y (List.mem_cons_of_mem x hy))

theorem arg_max_gt_of_not_le {l : List (String × ℝ)} {b : String × ℝ} {c : ℝ}
    (hb : arg_max l = some b) (hmax : ¬ list_max (l.map Prod.snd) ≤ c) :
    c < b.2 := by
  by_contra hcb
  apply hmax
  apply list_max_le
  · cases l with
    | nil => cases hb
    | cons p ps => simp
  · intro x hx
    rcases List.mem_map.mp hx with ⟨r, hr, rfl⟩
    exact le_trans (arg_max_ge hb r hr) (le_of_not_lt hcb)

theorem opt_loop_inv (insts : Insts) (ag : Agent) (P : (String → ℚ) → Prop)
    (hstep : ∀ alloc b, arg_max (marginal_utils insts ag alloc) = some b →
      (0.005 : ℝ) < b.2 → P alloc →
      P (fun n => if n = b.1 then alloc n + 1 else alloc n)) :
    ∀ (fuel : ℕ) (alloc : String → ℚ) (t : ℚ), P alloc →
      P (opt_loop insts ag fuel alloc t) := by
  intro fuel
  induction fuel with
  | zero => exact fun alloc t h => h
  | succ fuel ih =>
    intro alloc t h
    unfold opt_loop
    split
    · exact h
    · cases hb : arg_max (marginal_utils insts ag alloc) with
      | none => exact h
      | some best =>
        dsimp only
        split
        · exact h
        · next hmax =>
          exact ih _ _ (hstep alloc best hb (arg_max_gt_of_not_le hb hmax) h)

theorem opt_loop_nat (insts : Insts) (ag : Agent) :
    ∀ (fuel : ℕ) (alloc : String → ℚ) (t : ℚ),
      (∀ n, ∃ k : ℕ, alloc n = (k : ℚ)) →
      ∀ n, ∃ k : ℕ, opt_loop insts ag fuel alloc t n = (k : ℚ) := by
  intro fuel alloc t h
  refine opt_loop_inv insts ag (fun a => ∀ n, ∃ k : ℕ, a n = (k : ℚ)) ?_ fuel alloc t h
  intro alloc' b _ _ ha n
  by_cases hn : n = b.1
  · obtain ⟨k, hk⟩ := ha n
    exact ⟨k + 1, by dsimp only; rw [if_pos hn, hk]; push_cast; ring⟩
  · obtain ⟨k, hk⟩ := ha n
    exact ⟨k, by dsimp only; rw [if_neg hn]; exact hk⟩

theorem sum_map_update {l : List String} (f : String → ℚ) {x : String}
    (hnd : l.Nodup) (hx : x ∈ l) :
    (l.map (fun n => if n = x then f n + 1 else f n)).sum = (l.map f).sum + 1 := by
  induction l with
  | nil => cases hx
  | cons a as ih =>
    by_cases hax : a = x
    · subst hax
      have hnx : a ∉ as := (List.nodup_cons.mp hnd).1
      have hmap : as.map (fun n => if n = a then f n + 1 else f n) = as.map f := by
        refine List.map_congr_left (fun n hn => ?_)
        have hne : n ≠ a := fun h => hnx (h ▸ hn)
        rw [if_neg hne]
      simp only [List.map_cons, List.sum_cons, eq_self_iff_true, if_true, hmap]
      ring
    · have hx' : x ∈ as := by
        rcases List.mem_cons.mp hx with h | h
        · exact absurd h.symm hax
        · exact h
      simp only [List.map_cons, List.sum_cons, if_neg hax,
        ih (List.nodup_cons.mp hnd).2 hx']
      ring

theorem opt_loop_sum_le (insts : Insts) (ag : Agent) (hnd : ag.aware_of.Nodup) :
    ∀ (fuel : ℕ) (alloc : String → ℚ) (t : ℚ),
      (ag.aware_of.map (opt_loop insts ag fuel alloc t)).sum ≤
        (ag.aware_of.map alloc).sum + (fuel : ℚ) := by
  intro fuel
  induction fuel with
  | zero =>
    intro alloc t
    simp [opt_loop]
  | succ fuel ih =>
    intro alloc t
    have hnn : (0 : ℚ) ≤ ((fuel + 1 : ℕ) : ℚ) := Nat.cast_nonneg _
    unfold opt_loop
    split
    · exact le_add_of_nonneg_right hnn
    · cases hb : arg_max (marginal_utils insts ag alloc) with
      | none => exact le_add_of_nonneg_right hnn
      | some best =>
        dsimp only
        split
        · exact le_add_of_nonneg_right hnn
        · have hkey : best.1 ∈ ag.aware_of :=
            (marginal_utils_mem insts ag alloc (arg_max_mem hb)).1
          have hupd := sum_map_update alloc hnd hkey
          calc (ag.aware_of.map (opt_loop insts ag fuel
                  (fun n => if n = best.1 then alloc n + 1 else alloc n) (t - 1))).sum
              ≤ (ag.aware_of.map
                  (fun n => if n = best.1 then alloc n + 1 else alloc n)).sum
                  + (fuel : ℚ) := ih _ (t - 1)
            _ = (ag.aware_of.map alloc).sum + 1 + (fuel : ℚ) := by rw [hupd]
            _ = (ag.aware_of.map alloc).sum + ((fuel + 1 : ℕ) : ℚ) := by
                  push_cast; ring

theorem max_hours_nat (t : String) : ∃ m : ℕ, max_hours t = (m : ℚ) := by
  unfold max_hours
  split
  · exact ⟨60, by norm_num⟩
  split
  · exact ⟨20, by norm_num⟩
  split
  · exact ⟨15, by norm_num⟩
  split
  · exact ⟨30, by norm_num⟩
  split
  · exact ⟨40, by norm_num⟩
  split
  · exact ⟨50, by norm_num⟩
  exact ⟨50, by norm_num⟩

theorem opt_loop_cap (insts : Insts) (ag : Agent) :
    ∀ (fuel : ℕ) (alloc : String → ℚ) (t : ℚ),
      ((∀ n, ∃ k : ℕ, alloc n = (k : ℚ)) ∧
       (∀ n inst, assoc_find? insts n = some inst →
         alloc n ≤ max_hours inst.practice_type)) →
      ((∀ n, ∃ k : ℕ, opt_loop insts ag fuel alloc t n = (k : ℚ)) ∧
       (∀ n inst, assoc_find? insts n = some inst →
         opt_loop insts ag fuel alloc t n ≤ max_hours inst.practice_type)) := by
  intro fuel alloc t h
  refine opt_loop_inv insts ag
    (fun a => (∀ n, ∃ k : ℕ, a n = (k : ℚ)) ∧
      (∀ n inst, assoc_find? insts n = some inst →
        a n ≤ max_hours inst.practice_type)) ?_ fuel alloc t h
  rintro alloc' b hb hgt ⟨hint, hcap⟩
  have hbm := arg_max_mem hb
  obtain ⟨hmem, he⟩ := marginal_utils_mem insts ag alloc' hbm
  obtain ⟨-, inst₀, hf₀, hdis⟩ := mu_entry_spec insts ag alloc' b.1 b he
  have hlt : alloc' b.1 < max_hours inst₀.practice_type := by
    rcases hdis with h9 | ⟨hlt', -⟩
    · rw [h9] at hgt; norm_num at hgt
    · exact hlt'
  constructor
  · intro n
    by_cases hn : n = b.1
    · obtain ⟨k, hk⟩ := hint n
      exact ⟨k + 1, by dsimp only; rw [if_pos hn, hk]; push_cast; ring⟩
    · obtain ⟨k, hk⟩ := hint n
      exact ⟨k, by dsimp only; rw [if_neg hn]; exact hk⟩
  · intro n inst hf
    dsimp only
    by_cases hn : n = b.1
    · rw [if_pos hn]
      have hinst : inst₀ = inst := by
        rw [hn] at hf
        rw [hf] at hf₀
        exact (Option.some.inj hf₀).symm
      obtain ⟨k, hk⟩ := hint n
      obtain ⟨m, hm⟩ := max_hours_nat inst.practice_type
      rw [hinst, hm, ← hn, hk] at hlt
      rw [hk, hm]
      have hkm : k < m := by exact_mod_cast hlt
      have hkm' : k + 1 ≤ m := hkm
      exact_mod_cast hkm'
    · rw [if_neg hn]; exact hcap n inst hf

theorem filterMap_sum_le (l : List String) (f : String → ℚ)
    (hpos : ∀ n ∈ l, 0 ≤ f n) :
    ((l.filterMap (fun n => if (0.5 : ℚ) ≤ f n then some (n, f n) else none)).map
      Prod.snd).sum ≤ (l.map f).sum := by
  induction l with
  | nil => simp
  | cons a as ih =>
    have h0 := hpos a (List.mem_cons_self a as)
    have ih' := ih (fun n hn => hpos n (List.mem_cons_of_mem a hn))
    by_cases h : (0.5 : ℚ) ≤ f a
    · simp only [List.filterMap_cons, if_pos h, List.map_cons, List.sum_cons,
        List.map_cons]
      linarith
    · simp only [List.filterMap_cons, if_neg h, List.map_cons, List.sum_cons]
      linarith

theorem filterMap_find_none {l : List String} {f : String → ℚ} {n : String}
    (h : ¬ (0.5 : ℚ) ≤ f n) :
    assoc_find?
      (l.filterMap (fun m => if (0.5 : ℚ) ≤ f m then some (m, f m) else none)) n
      = none := by
  induction l with
  | nil => rfl
  | cons a as ih =>
    by_cases ha : (0.5 : ℚ) ≤ f a
    · by_cases han : a = n
      · subst han; exact absurd ha h
      · simp only [List.filterMap_cons, if_pos ha]
        simpa [assoc_find?, han] using ih
    · simpa only [List.filterMap_cons, if_neg ha] using ih

theorem opt_final_nat (insts : Insts) (ag : Agent) :
    ∀ n, ∃ k : ℕ, opt_final insts ag n = (k : ℚ) :=
  opt_loop_nat insts ag ag.time_budget (fun _ => 0) (ag.time_budget : ℚ)
    (fun _ => ⟨0, by norm_num⟩)

theorem opt_final_nonneg (insts : Insts) (ag : Agent) (n : String) :
    0 ≤ opt_final insts ag n := by
  obtain ⟨k, hk⟩ := opt_final_nat insts ag n
  rw [hk]
  exact Nat.cast_nonneg k

theorem optimize_allocation_sum_le (insts : Insts) (ag : Agent)
    (hnd : ag.aware_of.Nodup) :
    total_time_allocated (optimize_allocation insts ag) ≤ (ag.time_budget : ℚ) := by
  unfold total_time_allocated optimize_allocation
  calc ((ag.aware_of.filterMap (fun n => if (0.5 : ℚ) ≤ opt_final insts ag n
            then some (n, opt_final insts ag n) else none)).map Prod.snd).sum
      ≤ (ag.aware_of.map (opt_final insts ag)).sum :=
        filterMap_sum_le _ _ (fun n _ => opt_final_nonneg insts ag n)
    _ ≤ (ag.aware_of.map (fun _ => (0 : ℚ))).sum + (ag.time_budget : ℚ) :=
        opt_loop_sum_le insts ag hnd ag.time_budget (fun _ => 0) (ag.time_budget : ℚ)
    _ = (ag.time_budget : ℚ) := by simp

theorem optimize_allocation_mem (insts : Insts) (ag : Agent) {p : String × ℚ}
    (hp : p ∈ optimize_allocation insts ag) :
    p.1 ∈ ag.aware_of ∧ (0.5 : ℚ) ≤ p.2 ∧ p.2 = opt_final insts ag p.1 := by
  unfold optimize_allocation at hp
  rcases List.mem_filterMap.mp hp with ⟨n, hn, he⟩
  split at he
  · next h05 =>
    obtain rfl := Option.some.inj he
    exact ⟨hn, h05, rfl⟩
  · cases he

/-! ## Claim C1 (amended part) and Claim C8 -/

/-- Claim C1 (amended): the 168-hour invariant does hold for every
allocation produced by the greedy optimizer — the returned hours sum to at
most the agent's time budget of 168 — but, per `C1_counterexample`, not for
the state immediately after construction. -/
theorem C1_optimizer_respects_budget (insts : Insts) (ag : Agent)
    (hnd : ag.aware_of.Nodup) (hb : ag.time_budget = 168) :
    total_time_allocated (optimize_allocation insts ag) ≤ 168 := by
  have h := optimize_allocation_sum_le insts ag hnd
  rw [hb] at h
  exact_mod_cast h

/-- Witness for the amended C1 on a concrete agent. -/
theorem C1_optimizer_respects_budget_witness :
    cx3_agent.aware_of.Nodup ∧ cx3_agent.time_budget = 168 ∧
    total_time_allocated (optimize_allocation cx3_insts cx3_agent) ≤ 168 :=
  ⟨by decide, rfl,
   C1_optimizer_respects_budget cx3_insts cx3_agent (by decide) rfl⟩

theorem opt_loop_break_zero (insts : Insts) (ag : Agent)
    (hmu : ∀ b ∈ marginal_utils insts ag (fun _ => 0), b.2 ≤ (0.005 : ℝ)) :
    ∀ (fuel : ℕ) (t : ℚ),
      opt_loop insts ag fuel (fun _ => 0) t = (fun _ => (0 : ℚ)) := by
  intro fuel t
  cases fuel with
  | zero => rfl
  | succ fuel =>
    unfold opt_loop
    split
    · rfl
    · cases hb : arg_max (marginal_utils insts ag (fun _ => 0)) with
      | none => rfl
      | some best =>
        dsimp only
        have hne : (marginal_utils insts ag (fun _ => 0)).map Prod.snd ≠ [] := by
          intro hmapnil
          rw [List.map_eq_nil_iff.mp hmapnil] at hb
          cases hb
        have hle : list_max ((marginal_utils insts ag (fun _ => 0)).map Prod.snd)
            ≤ 0.005 := by
          apply list_max_le hne
          intro x hx
          rcases List.mem_map.mp hx with ⟨r, hr, rfl⟩
          exact hmu r hr
        rw [if_pos hle]

theorem optimize_allocation_empty (insts : Insts) (ag : Agent)
    (hmu : ∀ n ∈ ag.aware_of, ∀ inst, assoc_find? insts n = some inst →
      calculate_marginal_utility insts ag n 0 ≤ 0) :
    optimize_allocation insts ag = [] := by
  have hmu' : ∀ b ∈ marginal_utils insts ag (fun _ => 0), b.2 ≤ (0.005 : ℝ) := by
    intro b hb
    obtain ⟨hmem, he⟩ := marginal_utils_mem insts ag _ hb
    obtain ⟨-, inst, hf, hdis⟩ := mu_entry_spec insts ag _ b.1 b he
    rcases hdis with h9 | ⟨-, hvb⟩
    · rw [h9]; norm_num
    · rw [hvb]
      have h2 := hmu b.1 hmem inst hf
      have h3 : (((0 : ℚ) : ℝ)) = (0 : ℝ) := Rat.cast_zero
      rw [h3]
      linarith
  have hzero : opt_final insts ag = (fun _ => (0 : ℚ)) :=
    opt_loop_break_zero insts ag hmu' ag.time_budget (ag.time_budget : ℚ)
  unfold optimize_allocation
  rw [hzero]
  refine List.filterMap_eq_nil_iff.mpr ?_
  intro n hn
  rw [if_neg]
  norm_num

/-- Claim C8: the greedy optimizer's result never exceeds the agent's time
budget, every returned entry is at least 0.5 hours, no entry exceeds the
fixed per-practice-type cap (work 60, church 20, club 15, political_org 30,
education 40, community_center 50, default 50), and the result is empty
when every marginal utility starts non-positive. -/
theorem C8_optimizer_guarantees (insts : Insts) (ag : Agent)
    (hnd : ag.aware_of.Nodup) :
    total_time_allocated (optimize_allocation insts ag) ≤ (ag.time_budget : ℚ) ∧
    (∀ p ∈ optimize_allocation insts ag, (0.5 : ℚ) ≤ p.2) ∧
    (∀ p ∈ optimize_allocation insts ag, ∀ inst,
      assoc_find? insts p.1 = some inst → p.2 ≤ max_hours inst.practice_type) ∧
    (max_hours "work" = 60 ∧ max_hours "church" = 20 ∧ max_hours "club" = 15 ∧
     max_hours "political_org" = 30 ∧ max_hours "education" = 40 ∧
     max_hours "community_center" = 50 ∧ ∀ t ∉ catalog, max_hours t = 50) ∧
    ((∀ n ∈ ag.aware_of, ∀ inst, assoc_find? insts n = some inst →
        calculate_marginal_utility insts ag n 0 ≤ 0) →
      optimize_allocation insts ag = []) := by
  refine ⟨optimize_allocation_sum_le insts ag hnd, ?_, ?_, ?_, ?_⟩
  · intro p hp
    exact (optimize_allocation_mem insts ag hp).2.1
  · intro p hp inst hf
    obtain ⟨hmem, h05, hval⟩ := optimize_allocation_mem insts ag hp
    have hcap := (opt_loop_cap insts ag ag.time_budget (fun _ => 0)
      (ag.time_budget : ℚ)
      ⟨fun _ => ⟨0, by norm_num⟩, fun n inst' hf' => by
        obtain ⟨m, hm⟩ := max_hours_nat inst'.practice_type
        rw [hm]
        exact Nat.cast_nonneg m⟩).2
    rw [hval]
    exact hcap p.1 inst hf
  · refine ⟨by simp [max_hours], by simp [max_hours],
      by simp [max_hours], by simp [max_hours], by simp [max_hours],
      by simp [max_hours], ?_⟩
    intro t ht
    have h1 : ¬ t = "work" := fun h => ht (h ▸ (by decide : "work" ∈ catalog))
    have h2 : ¬ t = "church" := fun h => ht (h ▸ (by decide : "church" ∈ catalog))
    have h3 : ¬ t = "club" := fun h => ht (h ▸ (by decide : "club" ∈ catalog))
    have h4 : ¬ t = "political_org" :=
      fun h => ht (h ▸ (by decide : "political_org" ∈ catalog))
    have h5 : ¬ t = "education" :=
      fun h => ht (h ▸ (by decide : "education" ∈ catalog))
    have h6 : ¬ t = "community_center" :=
      fun h => ht (h ▸ (by decide : "community_center" ∈ catalog))
    simp [max_hours, h1, h2, h3, h4, h5, h6]
  · exact optimize_allocation_empty insts ag

/-- Witness for C8 on a concrete agent aware of one club. -/
theorem C8_optimizer_guarantees_witness :
    cx3_agent.aware_of.Nodup ∧
    total_time_allocated (optimize_allocation cx3_insts cx3_agent)
      ≤ (cx3_agent.time_budget : ℚ) :=
  ⟨by decide, (C8_optimizer_guarantees cx3_insts cx3_agent (by decide)).1⟩

/-! ## Claim C7 -/

theorem opt_loop_stays_zero (insts : Insts) (ag : Agent) (n : String)
    (inst : Institution) (hl : assoc_find? insts n = some inst)
    (hw : inst.practice_type ≠ "work")
    (hdep : ∀ alloc : String → ℚ, (∀ m, 0 ≤ alloc m) →
      ag.money_budget + total_income insts ag.aware_of alloc -
        total_costs insts ag.aware_of alloc - inst.money_cost_per_hour < 0) :
    ∀ (fuel : ℕ) (alloc : String → ℚ) (t : ℚ),
      ((∀ m, 0 ≤ alloc m) ∧ alloc n = 0) →
      ((∀ m, 0 ≤ opt_loop insts ag fuel alloc t m) ∧
        opt_loop insts ag fuel alloc t n = 0) := by
  intro fuel alloc t h
  refine opt_loop_inv insts ag (fun a => (∀ m, 0 ≤ a m) ∧ a n = 0) ?_ fuel alloc t h
  rintro alloc' b hb hgt ⟨hpos, hzero⟩
  have hbn : b.1 ≠ n := by
    intro heq
    obtain ⟨hmem, he⟩ := marginal_utils_mem insts ag alloc' (arg_max_mem hb)
    rw [heq] at he
    rw [mu_entry_afford_sentinel insts ag alloc' n inst hl hw
      (hdep alloc' hpos)] at he
    obtain hh := Option.some.inj he
    rw [← hh] at hgt
    norm_num at hgt
  constructor
  · intro m
    dsimp only
    by_cases hm : m = b.1
    · rw [if_pos hm]
      have := hpos m
      linarith
    · rw [if_neg hm]; exact hpos m
  · dsimp only
    rw [if_neg (Ne.symm hbn)]
    exact hzero

/-- Claim C7: if the agent's projected cash balance minus the next hour's
cost stays negative for a non-work institution with positive cost, the
optimizer's returned allocation contains no hours for it at all. -/
theorem C7_affordability_guard (insts : Insts) (ag : Agent) (n : String)
    (inst : Institution)
    (hn : n ∈ ag.aware_of)
    (hl : assoc_find? insts n = some inst)
    (hw : inst.practice_type ≠ "work")
    (hc : 0 < inst.money_cost_per_hour)
    (hdep : ∀ alloc : String → ℚ, (∀ m, 0 ≤ alloc m) →
      ag.money_budget + total_income insts ag.aware_of alloc -
        total_costs insts ag.aware_of alloc - inst.money_cost_per_hour < 0) :
    assoc_find? (optimize_allocation insts ag) n = none ∧
    alloc_get (optimize_allocation insts ag) n = 0 := by
  have hfin := opt_loop_stays_zero insts ag n inst hl hw hdep ag.time_budget
    (fun _ => 0) (ag.time_budget : ℚ) ⟨fun m => le_refl 0, rfl⟩
  have hzero : opt_final insts ag n = 0 := hfin.2
  have hno : assoc_find? (optimize_allocation insts ag) n = none := by
    unfold optimize_allocation
    apply filterMap_find_none
    rw [hzero]
    norm_num
  refine ⟨hno, ?_⟩
  unfold alloc_get
  rw [hno]
  rfl

/-- Witness for C7: budget 5 cannot afford the 10-an-hour club, so the
optimizer allocates it nothing. -/
theorem C7_affordability_guard_witness :
    (0 : ℚ) < cx7_inst.money_cost_per_hour ∧
    cx7_inst.practice_type ≠ "work" ∧
    alloc_get (optimize_allocation cx7_insts cx7_agent) "club_Costly" = 0 := by
  refine ⟨by norm_num [cx7_inst], by decide, ?_⟩
  refine (C7_affordability_guard cx7_insts cx7_agent "club_Costly" cx7_inst
    (by decide) rfl (by decide) (by norm_num [cx7_inst]) ?_).2
  intro alloc hpos
  have h := hpos "club_Costly"
  simp [total_income, total_costs, cx7_insts, cx7_inst, cx7_agent,
    base_agent, assoc_find?]
  have h10 : (0 : ℚ) ≤ alloc "club_Costly" * 10 := by positivity
  exact lt_of_le_of_lt (sub_le_self 5 h10) (by norm_num)

/-! ## Claim C9 -/

theorem step_agent_history (s : SimState) (i : ℕ) :
    (step_agent s i).history = s.history ∧
    (step_agent s i).timestep = s.timestep := by
  unfold step_agent
  cases s.agents.get? i with
  | none => exact ⟨rfl, rfl⟩
  | some ag0 =>
    dsimp only
    split
    · exact ⟨rfl, rfl⟩
    · exact ⟨rfl, rfl⟩

theorem foldl_step_agent_history (perm : List ℕ) :
    ∀ s : SimState, (perm.foldl step_agent s).history = s.history := by
  induction perm with
  | nil => intro s; rfl
  | cons i is ih =>
    intro s
    rw [List.foldl_cons, ih, (step_agent_history s i).1]

theorem step_lengths (s : SimState) (perm : List ℕ) :
    (step s perm).history.timestep.length = s.history.timestep.length + 1 ∧
    ∀ pt ∈ catalog,
      ((step s perm).history.avg_hours pt).length
        = (s.history.avg_hours pt).length + 1 ∧
      ((step s perm).history.participation_rate pt).length
        = (s.history.participation_rate pt).length + 1 := by
  have h1 := foldl_step_agent_history perm s
  unfold step
  dsimp only
  constructor
  · simp [record_state, h1]
  · intro pt hpt
    constructor
    · simp [record_state, hpt, h1]
    · simp [record_state, hpt, h1]

theorem run_steps_lengths (perms : List (List ℕ)) :
    ∀ s : SimState,
      (run_steps s perms).history.timestep.length
        = s.history.timestep.length + perms.length ∧
      ∀ pt ∈ catalog,
        ((run_steps s perms).history.avg_hours pt).length
          = (s.history.avg_hours pt).length + perms.length ∧
        ((run_steps s perms).history.participation_rate pt).length
          = (s.history.participation_rate pt).length + perms.length := by
  induction perms with
  | nil =>
    intro s
    exact ⟨by simp [run_steps], fun pt hpt => ⟨by simp [run_steps],
      by simp [run_steps]⟩⟩
  | cons p ps ih =>
    intro s
    obtain ⟨h1, h2⟩ := ih (step s p)
    obtain ⟨g1, g2⟩ := step_lengths s p
    refine ⟨?_, ?_⟩
    · show (run_steps (step s p) ps).history.timestep.length = _
      rw [h1, g1]
      simp only [List.length_cons]
      omega
    · intro pt hpt
      obtain ⟨h2a, h2b⟩ := h2 pt hpt
      obtain ⟨g2a, g2b⟩ := g2 pt hpt
      constructor
      · show ((run_steps (step s p) ps).history.avg_hours pt).length = _
        rw [h2a, g2a]
        simp only [List.length_cons]
        omega
      · show ((run_steps (step s p) ps).history.participation_rate pt).length = _
        rw [h2b, g2b]
        simp only [List.length_cons]
        omega

/-- Claim C9: every tick appends exactly one entry to each history series
(the timestep series and, per catalog practice type, the average-hours and
participation-rate series), so running N ticks appends exactly N entries to
every series. -/
theorem C9_history_round_trip (s : SimState) (perms : List (List ℕ)) :
    ((run_steps s perms).history.timestep.length
        = s.history.timestep.length + perms.length ∧
     ∀ pt ∈ catalog,
       ((run_steps s perms).history.avg_hours pt).length
         = (s.history.avg_hours pt).length + perms.length ∧
       ((run_steps s perms).history.participation_rate pt).length
         = (s.history.participation_rate pt).length + perms.length) ∧
    (∀ perm : List ℕ,
      (step s perm).history.timestep.length = s.history.timestep.length + 1 ∧
      ∀ pt ∈ catalog,
        ((step s perm).history.avg_hours pt).length
          = (s.history.avg_hours pt).length + 1 ∧
        ((step s perm).history.participation_rate pt).length
          = (s.history.participation_rate pt).length + 1) :=
  ⟨run_steps_lengths perms s, fun perm => step_lengths s perm⟩

/-- Witness for C9 at a concrete one-agent state, one tick. -/
theorem C9_history_round_trip_witness :
    ("work" ∈ catalog) ∧
    ((run_steps w9_state [[0]]).history.avg_hours "work").length
      = (w9_state.history.avg_hours "work").length + 1 :=
  ⟨by decide,
   by
    have h := ((C9_history_round_trip w9_state [[0]]).1.2 "work" (by decide)).1
    simpa using h⟩

/-! ## Claim C4 -/

theorem utility_formula (insts : Insts) (ag : Agent) (n : String)
    (inst : Institution) (profile : PracticeProfile)
    (hl : assoc_find? insts n = some inst)
    (hp : practice_profiles inst.practice_type = some profile)
    (hγ : 0 < profile.diminishing_returns_factor)
    (h : ℝ) (hh : 0 ≤ h) :
    calculate_institution_utility insts ag n h =
      ((value_dot profile.value_benefits_per_hour ag.values : ℚ) : ℝ) *
        h ^ (1 / ((profile.diminishing_returns_factor : ℚ) : ℝ)) +
      h * (if inst.practice_type = "work"
           then (inst.money_income_per_hour : ℝ) *
             (ag.values ValueDim.wealth : ℝ) * 0.01
           else -((inst.money_cost_per_hour : ℝ) *
             (ag.values ValueDim.wealth : ℝ) * 0.01)) := by
  have hγℝ : (0 : ℝ) < ((profile.diminishing_returns_factor : ℚ) : ℝ) := by
    exact_mod_cast hγ
  have hpne : 1 / ((profile.diminishing_returns_factor : ℚ) : ℝ) ≠ 0 :=
    ne_of_gt (one_div_pos.mpr hγℝ)
  unfold calculate_institution_utility
  rcases eq_or_lt_of_le hh with heq | hpos
  · rw [← heq]
    rw [if_pos le_rfl, Real.zero_rpow hpne]
    ring
  · rw [if_neg (not_le.mpr hpos), hl]
    dsimp only
    rw [hp]
    dsimp only
    split
    · ring
    · ring

theorem marginal_formula (insts : Insts) (ag : Agent) (n : String)
    (inst : Institution) (profile : PracticeProfile)
    (hl : assoc_find? insts n = some inst)
    (hp : practice_profiles inst.practice_type = some profile)
    (hγ : 0 < profile.diminishing_returns_factor)
    (h : ℝ) (hh : 0 ≤ h) :
    calculate_marginal_utility insts ag n h =
      ((value_dot profile.value_benefits_per_hour ag.values : ℚ) : ℝ) *
        ((h + 1) ^ (1 / ((profile.diminishing_returns_factor : ℚ) : ℝ))
          - h ^ (1 / ((profile.diminishing_returns_factor : ℚ) : ℝ))) +
      (if inst.practice_type = "work"
       then (inst.money_income_per_hour : ℝ) *
         (ag.values ValueDim.wealth : ℝ) * 0.01
       else -((inst.money_cost_per_hour : ℝ) *
         (ag.values ValueDim.wealth : ℝ) * 0.01)) := by
  unfold calculate_marginal_utility
  rw [utility_formula insts ag n inst profile hl hp hγ (h + 1) (by linarith),
      utility_formula insts ag n inst profile hl hp hγ h hh]
  ring

theorem rpow_succ_diff_antitone {p : ℝ} (hp0 : 0 < p) (hp1 : p < 1)
    {a b : ℝ} (ha : 0 ≤ a) (hab : a ≤ b) :
    (b + 1) ^ p - b ^ p ≤ (a + 1) ^ p - a ^ p := by
  rcases eq_or_lt_of_le hab with heq | hlt
  · rw [heq]
  · have hconc := Real.concaveOn_rpow (le_of_lt hp0) (le_of_lt hp1)
    have hb1 : (0 : ℝ) ≤ b + 1 := by linarith
    have hL : (0 : ℝ) < (b - a) + 1 := by linarith
    set t : ℝ := 1 / ((b - a) + 1) with ht
    have ht0 : 0 < t := by positivity
    have ht1 : t ≤ 1 := by
      rw [ht, div_le_one hL]
      linarith
    have hx : (1 - t) * a + t * (b + 1) = a + 1 := by
      rw [ht]
      field_simp
      ring
    have hy : t * a + (1 - t) * (b + 1) = b := by
      rw [ht]
      field_simp
      ring
    have h1 := hconc.2 (Set.mem_Ici.mpr ha) (Set.mem_Ici.mpr hb1)
      (by linarith : (0 : ℝ) ≤ 1 - t) (le_of_lt ht0) (by ring : (1 - t) + t = 1)
    have h2 := hconc.2 (Set.mem_Ici.mpr ha) (Set.mem_Ici.mpr hb1)
      (le_of_lt ht0) (by linarith : (0 : ℝ) ≤ 1 - t) (by ring : t + (1 - t) = 1)
    simp only [smul_eq_mul] at h1 h2
    rw [hx] at h1
    rw [hy] at h2
    linarith [h1, h2]

/-- Claim C4 (amended): for an institution whose practice profile has
diminishing-returns exponent γ > 1, and an agent whose benefit-value dot
product for that practice is non-negative, the marginal utility is
non-increasing in the allocated hours.  (Per `C4_counterexample`, without
the non-negativity condition the claim is false: the work practice carries
a negative leisure rate.) -/
theorem C4_diminishing_returns (insts : Insts) (ag : Agent) (n : String)
    (inst : Institution) (profile : PracticeProfile)
    (hl : assoc_find? insts n = some inst)
    (hp : practice_profiles inst.practice_type = some profile)
    (hγ : 1 < profile.diminishing_returns_factor)
    (hB : 0 ≤ value_dot profile.value_benefits_per_hour ag.values)
    (h₁ h₂ : ℝ) (h0 : 0 ≤ h₁) (h12 : h₁ ≤ h₂) :
    calculate_marginal_utility insts ag n h₂ ≤
      calculate_marginal_utility insts ag n h₁ := by
  have hγ0 : 0 < profile.diminishing_returns_factor := lt_trans zero_lt_one hγ
  have hγℝ : (1 : ℝ) < ((profile.diminishing_returns_factor : ℚ) : ℝ) := by
    exact_mod_cast hγ
  have hp0 : 0 < 1 / ((profile.diminishing_returns_factor : ℚ) : ℝ) :=
    one_div_pos.mpr (by linarith)
  have hp1 : 1 / ((profile.diminishing_returns_factor : ℚ) : ℝ) < 1 := by
    rw [div_lt_one (by linarith)]
    exact hγℝ
  rw [marginal_formula insts ag n inst profile hl hp hγ0 h₂ (le_trans h0 h12),
      marginal_formula insts ag n inst profile hl hp hγ0 h₁ h0]
  have hBℝ : (0 : ℝ) ≤
      ((value_dot profile.value_benefits_per_hour ag.values : ℚ) : ℝ) := by
    exact_mod_cast hB
  have hg := rpow_succ_diff_antitone hp0 hp1 h0 h12
  have hmul := mul_le_mul_of_nonneg_left hg hBℝ
  linarith

/-- Claim C4 counterexample: at the work practice (γ = 1.5 > 1) with an
agent who only values leisure, the marginal utility strictly increases from
hour 0 to hour 1, refuting the claim for arbitrary fixed value vectors. -/
theorem C4_counterexample :
    1 < work_profile.diminishing_returns_factor ∧
    cx4_inst.practice_type = "work" ∧
    calculate_marginal_utility cx4_insts cx4_agent "work_W" 0 <
      calculate_marginal_utility cx4_insts cx4_agent "work_W" 1 := by
  refine ⟨by norm_num [work_profile], rfl, ?_⟩
  have hl : assoc_find? cx4_insts "work_W" = some cx4_inst := rfl
  have hp : practice_profiles cx4_inst.practice_type = some work_profile := rfl
  have hγ : 0 < work_profile.diminishing_returns_factor := by
    norm_num [work_profile]
  rw [marginal_formula cx4_insts cx4_agent "work_W" cx4_inst work_profile hl hp
      hγ 0 le_rfl,
    marginal_formula cx4_insts cx4_agent "work_W" cx4_inst work_profile hl hp
      hγ 1 zero_le_one]
  have hB : ((value_dot work_profile.value_benefits_per_hour
      cx4_agent.values : ℚ) : ℝ) = -(1/20) := by
    norm_num [value_dot, work_profile, work_benefits, cx4_agent, base_agent,
      leisure_values]
  have hpval : (1 / ((work_profile.diminishing_returns_factor : ℚ) : ℝ))
      = 2 / 3 := by
    norm_num [work_profile]
  rw [hB, hpval]
  have hinc : (cx4_inst.money_income_per_hour : ℝ) = 0 := by
    norm_num [cx4_inst]
  have h2p : ((2 : ℝ)) ^ ((2 : ℝ) / 3) < 2 := by
    calc (2 : ℝ) ^ ((2 : ℝ) / 3)
        < (2 : ℝ) ^ (1 : ℝ) :=
          Real.rpow_lt_rpow_of_exponent_lt (by norm_num) (by norm_num)
      _ = 2 := Real.rpow_one 2
  have hz : (0 : ℝ) ^ ((2 : ℝ) / 3) = 0 := Real.zero_rpow (by norm_num)
  norm_num [cx4_inst, hz, Real.one_rpow]
  nlinarith [h2p]

/-- Witness for the amended C4 at a church (γ = 1.3) and a
community-valuing agent (benefit dot product 0.15 ≥ 0). -/
theorem C4_diminishing_returns_witness :
    ((0 : ℚ) ≤ value_dot church_profile.value_benefits_per_hour
        cx4w_agent.values ∧
      1 < church_profile.diminishing_returns_factor) ∧
    calculate_marginal_utility cx4w_insts cx4w_agent "church_K" 1 ≤
      calculate_marginal_utility cx4w_insts cx4w_agent "church_K" 0 :=
  ⟨⟨by norm_num [value_dot, church_profile, church_benefits, cx4w_agent,
      base_agent, community_values],
    by norm_num [church_profile]⟩,
   C4_diminishing_returns cx4w_insts cx4w_agent "church_K" cx4w_inst
     church_profile rfl rfl (by norm_num [church_profile])
     (by norm_num [value_dot, church_profile, church_benefits, cx4w_agent,
       base_agent, community_values])
     0 1 le_rfl zero_le_one⟩
